import Mathlib

/-!
Verification of the component-routing worker of the `branddesignsystem`
repository (`src/index.ts`, with the legacy variant `src/worker.js`).

The TypeScript worker is shallowly embedded: request paths, header names and
bodies are Lean `String`s, the asset store is a function from a URL path to
either a response or a thrown error message, and `JSON.parse` of the manifest
body is abstracted as an environment-supplied partial parse.  JavaScript
string primitives used by the source (`slice`, `includes`, `replace`,
`split`, `join`, `toUpperCase` on ASCII, `Headers.set` lowercasing) are
modelled on `String.data` character lists.
-/

set_option maxRecDepth 4000

/-- Byte-for-byte substring containment (JS `String.prototype.includes`,
stated as a proposition over the underlying character lists). -/
def strInfix (needle hay : String) : Prop := needle.data <:+: hay.data

instance strInfixDecidable (needle hay : String) : Decidable (strInfix needle hay) :=
  inferInstanceAs (Decidable (needle.data <:+: hay.data))

/-- ASCII lowercasing of a header name, modelling the normalisation the JS
`Headers` class applies to every header name. -/
def strLower (s : String) : String := ⟨s.data.map Char.toLower⟩

/-- Model of JS `path.slice(1)`: drop the first character. -/
def strDrop1 (s : String) : String := ⟨s.data.drop 1⟩

/-- Model of JS `p.slice(0, -1)`: drop the last character. -/
def strDropLast (s : String) : String := ⟨s.data.dropLast⟩

/-- Split a list at the first occurrence of `pat` (JS `indexOf` search):
`some (before, after)` when `pat` occurs, `none` otherwise. -/
def splitFirst (pat l : List Char) : Option (List Char × List Char) :=
  if pat.isPrefixOf l then some ([], l.drop pat.length)
  else
    match l with
    | [] => none
    | c :: rest => (splitFirst pat rest).map (fun p => (c :: p.1, p.2))

/-- JS `String.prototype.includes`. -/
def strIncludes (s sub : String) : Bool := (splitFirst sub.data s.data).isSome

/-- ECMAScript `GetSubstitution` for a string search (no capture groups):
in the replacement text, `$$` produces `$`, `$&` the matched text, a dollar
followed by a backquote the text before the match, a dollar followed by an
apostrophe the text after it; any other character is copied verbatim. -/
def getSubstitution : List Char → List Char → List Char → List Char → List Char
  | [], _, _, _ => []
  | c :: rest, matched, before, after =>
    if c = '$' then
      match rest with
      | [] => ['$']
      | d :: rest2 =>
        if d = '$' then '$' :: getSubstitution rest2 matched before after
        else if d = '&' then matched ++ getSubstitution rest2 matched before after
        else if d = Char.ofNat 96 then before ++ getSubstitution rest2 matched before after
        else if d = Char.ofNat 39 then after ++ getSubstitution rest2 matched before after
        else '$' :: d :: getSubstitution rest2 matched before after
    else c :: getSubstitution rest matched before after

/-- JS `String.prototype.replace` with a string pattern: replace the first
occurrence of `pat`, applying `GetSubstitution` to the replacement text;
return the string unchanged when `pat` does not occur. -/
def jsReplace (s pat repl : String) : String :=
  match splitFirst pat.data s.data with
  | none => s
  | some (a, b) => ⟨a ++ getSubstitution repl.data pat.data a b ++ b⟩

example : jsReplace "A<m>B" "<m>" "X" = "AXB" := by decide
example : jsReplace "A<m>B" "<m>" "$$" = "A$B" := by decide
example : strIncludes "abc" "bc" = true := by decide
example : strIncludes "abc" "" = true := by decide
example : strLower "Content-Type" = "content-type" := by decide

/-- An HTTP response as the worker observes and builds it: status, status
text, a header list (names stored lowercased, as the JS `Headers` class
normalises them) and the body read as text. -/
structure HttpResponse where
  status : Nat
  statusText : String
  headers : List (String × String)
  body : String
deriving DecidableEq

/-- JS `Response.ok`: status in the inclusive range 200–299. -/
def HttpResponse.isOk (r : HttpResponse) : Bool := 200 ≤ r.status && r.status < 300

/-- `Headers.set`: lowercase the name, drop any existing entries for it, add
the new pair. -/
def hset (hs : List (String × String)) (name value : String) : List (String × String) :=
  hs.filter (fun p => p.1 != strLower name) ++ [(strLower name, value)]

/-- `Headers.get`: look up a header by lowercased name. -/
def hget (hs : List (String × String)) (name : String) : Option String :=
  (hs.find? (fun p => p.1 == strLower name)).map (fun p => p.2)

/-- The worker's environment.  `assets` is the `ASSETS` binding: fetching a
URL path either yields a response or throws (`Except.error` carries the JS
error message).  `jsonArray` abstracts `res.json()` on the manifest body:
`some slugs` when the body parses as a JSON array of strings, `none` when
parsing throws. -/
structure Env where
  assets : String → Except String HttpResponse
  jsonArray : String → Option (List String)

-- ---------- routing & rendering (src/index.ts) ----------

/-- `normalizePath` (src/index.ts:52): strip one trailing slash unless the
path is the root. -/
def normalizePath (p : String) : String :=
  if (p.data.getLast? == some '/') && (p != "/") then strDropLast p else p

/-- `hasFileExtension` (src/index.ts:57): the regex `\.[a-zA-Z0-9]+$` —
a nonempty trailing run of ASCII alphanumerics preceded by a dot. -/
def hasFileExtension (path : String) : Bool :=
  let rev := path.data.reverse
  let ext := rev.takeWhile Char.isAlphanum
  !ext.isEmpty && ((rev.drop ext.length).head? == some '.')

/-- JS `slug.split("-")` on the character list: split at every hyphen,
keeping empty words (`"".split("-")` is `[""]`). -/
def splitOnDash (l : List Char) : List (List Char) :=
  match l with
  | [] => [[]]
  | c :: rest =>
    if c = '-' then [] :: splitOnDash rest
    else
      match splitOnDash rest with
      | [] => [[c]]
      | w :: ws => (c :: w) :: ws

/-- `slugToTitle` (src/index.ts:61): split on hyphens, uppercase each word's
first character (`charAt(0).toUpperCase()` on an ASCII word), join with
spaces. -/
def slugToTitle (slug : String) : String :=
  String.intercalate " "
    ((splitOnDash slug.data).map (fun part =>
      match part with
      | [] => ""
      | c :: cs => ⟨Char.toUpper c :: cs⟩))

/-- `ComponentMeta` (src/index.ts:12). -/
structure ComponentMeta where
  slug : String
  path : String
  title : String
  file : String
deriving DecidableEq

/-- `toMeta` (src/index.ts:68). -/
def toMeta (slug : String) : ComponentMeta :=
  { slug := slug
    path := if slug = "index" then "/" else "/" ++ slug
    title := if slug = "index" then "BDS Bootstrap Tokens – Overview" else slugToTitle slug
    file := "/components/" ++ slug ++ ".html" }

/-- The `.sort((a, b) => a.title.localeCompare(b.title))` calls, modelled as
a stable sort on titles (`localeCompare` is modelled by code-point order;
every property proved below is independent of the comparator and of the
element order of the result). -/
def sortByTitle (l : List ComponentMeta) : List ComponentMeta :=
  List.insertionSort (fun a b => a.title ≤ b.title) l

/-- `discoverComponents` (src/index.ts:77): fetch `/components/_index.json`;
on a successful fetch whose body parses as a JSON array of slugs, map the
slugs through `toMeta` and sort by title; if the fetch fails, is non-ok, or
parsing throws, fall back to the single `index` entry.  Note the function
keeps no cache: every call performs the fetch. -/
def discoverComponents (env : Env) : List ComponentMeta :=
  match env.assets "/components/_index.json" with
  | .ok res =>
    if res.isOk then
      match env.jsonArray res.body with
      | some slugs => sortByTitle (slugs.map toMeta)
      | none => [toMeta "index"]
    else [toMeta "index"]
  | .error _ => [toMeta "index"]

/-- The fixed document shell of `renderHtml` (src/index.ts:95), split at the
interpolation points and around the `<title>` tags; concatenated in
`renderHtml` below, the pieces reproduce the template literal verbatim. -/
def htmlShellPre : String :=
  "<!doctype html>\n<html lang=\"en\">\n<head>\n  <meta charset=\"utf-8\" />\n  <meta name=\"viewport\" content=\"width=device-width, initial-scale=1\" />\n  "

/-- The shell between `</title>` and the interpolated body. -/
def htmlShellMid : String :=
  "\n  <link\n    href=\"https://cdn.jsdelivr.net/npm/bootstrap@5.3.3/dist/css/bootstrap.min.css\"\n    rel=\"stylesheet\"\n    integrity=\"sha384-QWTKZyjpPEjISv5WaRU9OFeRpok6YctnYmDr5pNlyT2bRjXh0JMhjY6hW+ALEwIH\"\n    crossorigin=\"anonymous\"\n  />\n  <link rel=\"stylesheet\" href=\"/brand-tokens.css\" />\n</head>\n<body class=\"container my-4\">\n"

/-- The shell after the interpolated body. -/
def htmlShellPost : String :=
  "\n\n  <script\n    src=\"https://cdn.jsdelivr.net/npm/bootstrap@5.3.3/dist/js/bootstrap.bundle.min.js\"\n    integrity=\"sha384-pprn3073KE6tl6bjs2QrFaJGz5/SUsLqktiwsUTF55Jfv3qYSDhgCecCxMW52nD2\"\n    crossorigin=\"anonymous\"\n  ></script>\n</body>\n</html>"

/-- `renderHtml` (src/index.ts:95): wrap a body in the fixed shell with the
given title. -/
def renderHtml (title body : String) : String :=
  htmlShellPre ++ "<title>" ++ title ++ "</title>" ++ htmlShellMid ++ body ++ htmlShellPost

/-- One `<li>` row of the component listing (src/index.ts:128). -/
def componentListItem (c : ComponentMeta) : String :=
  "\n<li class=\"list-group-item d-flex align-items-center justify-content-between\">\n  <div>\n    <div class=\"fw-semibold\">" ++ c.title ++ "</div>\n    <div class=\"text-muted small\">" ++ c.path ++ "</div>\n  </div>\n  <a class=\"btn btn-sm btn-outline-primary\" href=\"" ++ c.path ++ "\">View</a>\n</li>"

/-- `renderComponentList` (src/index.ts:123): drop the `index` entry, sort by
title, render one row per entry; an empty listing renders the informational
alert instead. -/
def renderComponentList (components : List ComponentMeta) : String :=
  let list := String.join ((sortByTitle (components.filter (fun c => c.slug != "index"))).map componentListItem)
  if list = "" then
    "<div class=\"alert alert-info\" role=\"status\">\n      No components listed. Add slugs to <code>/components/_index.json</code>.\n    </div>"
  else
    "<div class=\"card\"><div class=\"card-body\">\n    <ul class=\"list-group list-group-flush\">" ++ list ++ "</ul>\n  </div></div>"

/-- The designated marker string (src/index.ts:151). -/
def marker : String := "<!-- COMPONENT_LIST -->"

/-- `injectComponentList` (src/index.ts:150): replace the marker when the
fragment includes it, otherwise append the listing after a newline. -/
def injectComponentList (fragment listHtml : String) : String :=
  if strIncludes fragment marker then jsReplace fragment marker listHtml
  else fragment ++ "\n" ++ listHtml

/-- `serveComponent` (src/index.ts:155): fetch the fragment at the route's
canonical file path (a rejected fetch propagates as `Except.error` to the
top-level catch); a non-ok store response yields the typed plain-text 404;
otherwise the fragment (with the listing injected for the `index` slug) is
wrapped in the shell and returned as a 200 HTML page.  Both non-throwing
branches return a response, matching the `Response | null` type only
nominally. -/
def serveComponent (route : ComponentMeta) (env : Env) (components : List ComponentMeta) :
    Except String (Option HttpResponse) :=
  match env.assets route.file with
  | .error e => .error e
  | .ok fragmentRes =>
    if fragmentRes.isOk then
      let fragment := fragmentRes.body
      let fragment :=
        if route.slug = "index" then injectComponentList fragment (renderComponentList components)
        else fragment
      .ok (some
        { status := 200
          statusText := ""
          headers := [("content-type", "text/html; charset=utf-8")]
          body := renderHtml route.title fragment })
    else
      .ok (some
        { status := 404
          statusText := ""
          headers := [("content-type", "text/plain; charset=utf-8")]
          body := "Component not found. Unable to load " ++ route.file ++ ".\n" ++
            "Make sure it exists at public" ++ route.file ++ " and re-deploy." })

-- ---------- security headers (src/index.ts:187) ----------

/-- The fixed content-security-policy value: the source's array of directives
joined with "; ". -/
def cspValue : String :=
  String.intercalate "; "
    ["default-src 'self'",
     "script-src 'self' https://cdn.jsdelivr.net",
     "style-src 'self' 'unsafe-inline' https://cdn.jsdelivr.net",
     "img-src 'self' https: data:",
     "font-src 'self' https://cdn.jsdelivr.net",
     "connect-src 'self'",
     "object-src 'none'",
     "base-uri 'self'",
     "frame-ancestors 'none'",
     "upgrade-insecure-requests"]

/-- `withSecurityHeaders` (src/index.ts:187): rebuild the response with the
same status, status text and body, setting the six fixed security headers. -/
def withSecurityHeaders (res : HttpResponse) : HttpResponse :=
  { status := res.status
    statusText := res.statusText
    headers :=
      hset (hset (hset (hset (hset (hset res.headers
        "Content-Security-Policy" cspValue)
        "Referrer-Policy" "no-referrer")
        "X-Content-Type-Options" "nosniff")
        "X-Frame-Options" "DENY")
        "Permissions-Policy" "geolocation=(), microphone=(), camera=()")
        "Strict-Transport-Security" "max-age=15552000; includeSubDomains; preload"
    body := res.body }

-- ---------- the fetch handler (src/index.ts:19) ----------

/-- The catch-all 500 response (src/index.ts:37): the error message appended
to the generic text, finalized with the security headers. -/
def internalError (message : String) : HttpResponse :=
  withSecurityHeaders
    { status := 500
      statusText := ""
      headers := [("content-type", "text/plain; charset=utf-8")]
      body := "Internal Error\n\n" ++ message }

/-- The static-asset passthrough (src/index.ts:34): forward the original
request to the asset store, overlay the security headers; a rejected fetch is
caught at the top level and becomes the 500 response. -/
def assetPassthrough (env : Env) (pathname : String) : HttpResponse :=
  match env.assets pathname with
  | .ok asset => withSecurityHeaders asset
  | .error e => internalError e

/-- The slug computation (src/index.ts:27): the root maps to `index`, any
other path to itself minus the leading slash. -/
def slugOf (path : String) : String := if path = "/" then "index" else strDrop1 path

/-- The route resolution (src/index.ts:29): the index entry for the slug when
present, else a `ComponentMeta` synthesized from the slug. -/
def routeFor (components : List ComponentMeta) (slug : String) : ComponentMeta :=
  (components.find? (fun c => c.slug == slug)).getD (toMeta slug)

/-- `fetch` (src/index.ts:19): normalize the path; on an extensionless path
resolve the slug against the discovered components and serve the wrapped
page (the `null` fall-through continues to the passthrough); otherwise, or
on a missing component response, pass the original request through to the
asset store.  A thrown error anywhere becomes the 500 response. -/
def fetchHandler (env : Env) (pathname : String) : HttpResponse :=
  let path := normalizePath pathname
  if hasFileExtension path = false then
    let slug := slugOf path
    let components := discoverComponents env
    let route := routeFor components slug
    match serveComponent route env components with
    | .ok (some response) => withSecurityHeaders response
    | .ok none => assetPassthrough env pathname
    | .error e => internalError e
  else assetPassthrough env pathname

-- ---------- legacy variant (src/worker.js) ----------

/-- JS `startsWith`. -/
def strStartsWith (s pre : String) : Bool := pre.data.isPrefixOf s.data

/-- JS `endsWith`. -/
def strEndsWith (s suf : String) : Bool := suf.data.isSuffixOf s.data

/-- `file.replace(/^components\//, "")` (src/worker.js:21): strip the anchored
prefix when present. -/
def stripComponentsPrefix (s : String) : String :=
  if strStartsWith s "components/" then ⟨s.data.drop 11⟩ else s

/-- `file.replace(/\.html$/, "")` (src/worker.js:21): strip the anchored
suffix when present. -/
def stripHtmlSuffix (s : String) : String :=
  if strEndsWith s ".html" then ⟨s.data.take (s.data.length - 5)⟩ else s

/-- `discoverComponents` (src/worker.js:9), with the module-level
`componentCache` made explicit: the first component is the cache cell before
the call, the result pairs the returned list with the cell after the call.
`manifestKeys` models `Object.keys` of the parsed `__STATIC_CONTENT_MANIFEST`
(`readManifest` yields `{}`, hence `[]`, when the manifest is missing or
unparseable).  A populated cache is returned as-is without reading the
manifest; otherwise the keys under `components/` with the `.html` extension
and no hidden segment are mapped to their metadata, sorted by title, and the
cache is populated. -/
def discoverComponentsW (componentCache : Option (List ComponentMeta))
    (manifestKeys : List String) : List ComponentMeta × Option (List ComponentMeta) :=
  match componentCache with
  | some cached => (cached, some cached)
  | none =>
    let components := sortByTitle
      ((manifestKeys.filter (fun key =>
          strStartsWith key "components/" && strEndsWith key ".html" && !strIncludes key "/.")).map
        (fun file =>
          let slug := stripHtmlSuffix (stripComponentsPrefix file)
          { slug := slug
            path := if slug = "index" then "/" else "/" ++ slug
            title := if slug = "index" then "BDS Bootstrap Tokens – Overview" else slugToTitle slug
            file := "/components/" ++ slug ++ ".html" }))
    (components, some components)

example : hasFileExtension "/brand-tokens.css" = true := by decide
example : hasFileExtension "/email-campaign" = false := by decide
example : hasFileExtension "/foo." = false := by decide
example : hasFileExtension "/.x" = true := by decide
example : normalizePath "/email-campaign/" = "/email-campaign" := by decide
example : normalizePath "/" = "/" := by decide
example : slugToTitle "slide-typography" = "Slide Typography" := by decide

-- ---------- generic helper lemmas ----------

/-- Tail-recursive substring search, used only to let the kernel evaluate
substring facts on long concrete strings iteratively. -/
def includesB (pat : List Char) (l : List Char) : Bool :=
  if pat.isPrefixOf l then true
  else
    match l with
    | [] => false
    | _ :: rest => includesB pat rest

theorem includesB_of_contains {pat l : List Char} (h : pat <:+: l) : includesB pat l = true := by
  induction l with
  | nil =>
    rw [List.infix_nil] at h
    subst h
    rfl
  | cons c rest ih =>
    rw [includesB]
    split
    · rfl
    · rename_i hpre
      rcases (List.infix_cons_iff).1 h with hp | hi
      · exact absurd (List.isPrefixOf_iff_prefix.2 hp) (by simpa using hpre)
      · exact ih hi

theorem not_strInfix_of_includesB {needle hay : String}
    (h : includesB needle.data hay.data = false) : ¬ strInfix needle hay := by
  intro hinf
  rw [includesB_of_contains hinf] at h
  exact Bool.noConfusion h

theorem find?_filter_irrelevant {p q : String × String → Bool}
    (compat : ∀ x, q x = false → p x = false) (hs : List (String × String)) :
    (hs.filter q).find? p = hs.find? p := by
  induction hs with
  | nil => rfl
  | cons a t ih =>
    by_cases hqa : q a = true
    · rw [List.filter_cons_of_pos hqa]
      rw [List.find?_cons, List.find?_cons]
      cases hpa : p a
      · exact ih
      · rfl
    · have hqa2 : q a = false := by
        cases hv : q a
        · rfl
        · exact absurd hv hqa
      rw [List.filter_cons_of_neg (by rw [hqa2]; exact Bool.false_ne_true)]
      rw [List.find?_cons, compat a hqa2]
      exact ih

theorem find?_append_left_false {p : String × String → Bool}
    {l1 : List (String × String)} (l2 : List (String × String))
    (h : ∀ x ∈ l1, p x = false) : (l1 ++ l2).find? p = l2.find? p := by
  induction l1 with
  | nil => rfl
  | cons a t ih =>
    rw [List.cons_append, List.find?_cons, h a (List.mem_cons_self a t)]
    exact ih (fun x hx => h x (List.mem_cons_of_mem a hx))

theorem hget_hset_self (hs : List (String × String)) (n v : String) :
    hget (hset hs n v) n = some v := by
  unfold hget hset
  rw [find?_append_left_false]
  · simp [List.find?]
  · intro x hx
    have hq := List.of_mem_filter hx
    have : (x.1 == strLower n) = false := by
      cases hb : x.1 == strLower n
      · rfl
      · rw [bne, hb] at hq
        exact absurd hq (by decide)
    exact this

theorem hget_hset_ne (hs : List (String × String)) {n n2 : String} (v : String)
    (hne : strLower n ≠ strLower n2) : hget (hset hs n2 v) n = hget hs n := by
  unfold hget hset
  rw [List.find?_append]
  rw [find?_filter_irrelevant]
  · have hlast : ((strLower n2, v).1 == strLower n) = false :=
      beq_eq_false_iff_ne.2 (Ne.symm hne)
    cases hfind : hs.find? (fun p => p.1 == strLower n)
    · simp [List.find?, hlast]
    · simp
  · intro x hx
    have hx2 : (x.1 == strLower n2) = true := by
      cases hb : x.1 == strLower n2
      · rw [bne, hb] at hx
        exact absurd hx (by decide)
      · rfl
    have hxeq : x.1 = strLower n2 := eq_of_beq hx2
    exact beq_eq_false_iff_ne.2 (by rw [hxeq]; exact Ne.symm hne)

/-- The response property "carries the six fixed security headers with their
fixed values" (spec section 4.6). -/
def securityHeaderSet (r : HttpResponse) : Prop :=
  hget r.headers "Content-Security-Policy" = some cspValue ∧
  hget r.headers "Referrer-Policy" = some "no-referrer" ∧
  hget r.headers "X-Content-Type-Options" = some "nosniff" ∧
  hget r.headers "X-Frame-Options" = some "DENY" ∧
  hget r.headers "Permissions-Policy" = some "geolocation=(), microphone=(), camera=()" ∧
  hget r.headers "Strict-Transport-Security" = some "max-age=15552000; includeSubDomains; preload"

theorem securityHeaderSet_withSecurityHeaders (res : HttpResponse) :
    securityHeaderSet (withSecurityHeaders res) := by
  unfold securityHeaderSet withSecurityHeaders
  refine ⟨?_, ?_, ?_, ?_, ?_, ?_⟩
  · rw [hget_hset_ne _ _ (by decide), hget_hset_ne _ _ (by decide),
      hget_hset_ne _ _ (by decide), hget_hset_ne _ _ (by decide),
      hget_hset_ne _ _ (by decide), hget_hset_self]
  · rw [hget_hset_ne _ _ (by decide), hget_hset_ne _ _ (by decide),
      hget_hset_ne _ _ (by decide), hget_hset_ne _ _ (by decide), hget_hset_self]
  · rw [hget_hset_ne _ _ (by decide), hget_hset_ne _ _ (by decide),
      hget_hset_ne _ _ (by decide), hget_hset_self]
  · rw [hget_hset_ne _ _ (by decide), hget_hset_ne _ _ (by decide), hget_hset_self]
  · rw [hget_hset_ne _ _ (by decide), hget_hset_self]
  · rw [hget_hset_self]

theorem hget_withSecurityHeaders_contentType (res : HttpResponse) :
    hget (withSecurityHeaders res).headers "Content-Type" =
      hget res.headers "Content-Type" := by
  unfold withSecurityHeaders
  rw [hget_hset_ne _ _ (by decide), hget_hset_ne _ _ (by decide),
    hget_hset_ne _ _ (by decide), hget_hset_ne _ _ (by decide),
    hget_hset_ne _ _ (by decide), hget_hset_ne _ _ (by decide)]

theorem withSecurityHeaders_status (res : HttpResponse) :
    (withSecurityHeaders res).status = res.status := rfl

theorem withSecurityHeaders_statusText (res : HttpResponse) :
    (withSecurityHeaders res).statusText = res.statusText := rfl

theorem withSecurityHeaders_body (res : HttpResponse) :
    (withSecurityHeaders res).body = res.body := rfl

theorem strExt {s t : String} (h : s.data = t.data) : s = t :=
  congrArg String.mk h

theorem strData_append (s t : String) : (s ++ t).data = s.data ++ t.data := rfl

theorem strInfix_of_decomp {hay a needle b : String} (h : hay = a ++ needle ++ b) :
    strInfix needle hay := by
  subst h
  exact ⟨a.data, b.data, by simp [strData_append]⟩

theorem strInfix_append_right {needle s : String} (t : String) (h : strInfix needle s) :
    strInfix needle (s ++ t) := by
  rcases h with ⟨x, y, hxy⟩
  exact ⟨x, y ++ t.data, by rw [strData_append, ← hxy]; simp⟩

theorem strInfix_append_left {needle s : String} (t : String) (h : strInfix needle s) :
    strInfix needle (t ++ s) := by
  rcases h with ⟨x, y, hxy⟩
  exact ⟨t.data ++ x, y, by rw [strData_append, ← hxy]; simp⟩

theorem strAppend_assoc (a b c : String) : a ++ b ++ c = a ++ (b ++ c) := by
  apply strExt
  simp [strData_append]

-- ---------- splitFirst / jsReplace lemmas ----------

theorem splitFirst_eq {pat l a b : List Char}
    (h : splitFirst pat l = some (a, b)) : l = a ++ pat ++ b := by
  induction l generalizing a b with
  | nil =>
    rw [splitFirst] at h
    by_cases hp : pat.isPrefixOf [] = true
    · rw [if_pos hp] at h
      have hpfx : pat <+: [] := List.isPrefixOf_iff_prefix.1 hp
      rw [List.prefix_nil] at hpfx
      subst hpfx
      cases h
      rfl
    · rw [if_neg hp] at h
      exact absurd h (by simp)
  | cons c rest ih =>
    rw [splitFirst] at h
    by_cases hp : pat.isPrefixOf (c :: rest) = true
    · rw [if_pos hp] at h
      have hpfx : pat <+: c :: rest := List.isPrefixOf_iff_prefix.1 hp
      rcases hpfx with ⟨t, ht⟩
      cases h
      rw [← ht]
      simp
    · rw [if_neg hp] at h
      simp only [Option.map_eq_some'] at h
      rcases h with ⟨⟨a0, b0⟩, hsf, heq⟩
      cases heq
      rw [ih hsf]
      rfl

theorem splitFirst_min {pat l a b : List Char}
    (h : splitFirst pat l = some (a, b)) :
    ∀ a2 b2, l = a2 ++ pat ++ b2 → a.length ≤ a2.length := by
  induction l generalizing a b with
  | nil =>
    intro a2 b2 he
    rw [splitFirst] at h
    by_cases hp : pat.isPrefixOf [] = true
    · rw [if_pos hp] at h
      cases h
      simp
    · rw [if_neg hp] at h
      exact absurd h (by simp)
  | cons c rest ih =>
    intro a2 b2 he
    rw [splitFirst] at h
    by_cases hp : pat.isPrefixOf (c :: rest) = true
    · rw [if_pos hp] at h
      cases h
      simp
    · rw [if_neg hp] at h
      simp only [Option.map_eq_some'] at h
      rcases h with ⟨⟨a0, b0⟩, hsf, heq⟩
      cases heq
      cases a2 with
      | nil =>
        exfalso
        apply hp
        apply List.isPrefixOf_iff_prefix.2
        exact ⟨b2, by simpa using he.symm⟩
      | cons c2 t2 =>
        have hc : c = c2 := by
          have := congrArg (fun l => List.head? l) he
          simpa using this
        have htail : rest = t2 ++ pat ++ b2 := by
          have := congrArg (fun l => List.tail l) he
          simpa using this
        simpa using Nat.succ_le_succ (ih hsf t2 b2 htail)

theorem splitFirst_none_of_no_match {pat l : List Char}
    (h : ¬ pat <:+: l) : splitFirst pat l = none := by
  induction l with
  | nil =>
    rw [splitFirst]
    rw [if_neg]
    intro hp
    exact h (List.IsPrefix.isInfix (List.isPrefixOf_iff_prefix.1 hp))
  | cons c rest ih =>
    rw [splitFirst]
    rw [if_neg (fun hp => h (List.IsPrefix.isInfix (List.isPrefixOf_iff_prefix.1 hp)))]
    rw [ih (fun hi => h (List.infix_cons hi))]
    rfl

theorem splitFirst_not_infix_of_none {pat l : List Char}
    (h : splitFirst pat l = none) : ¬ pat <:+: l := by
  induction l with
  | nil =>
    rw [splitFirst] at h
    intro hi
    rw [List.infix_nil] at hi
    subst hi
    simp [List.isPrefixOf] at h
  | cons c rest ih =>
    rw [splitFirst] at h
    by_cases hp : pat.isPrefixOf (c :: rest) = true
    · rw [if_pos hp] at h
      exact absurd h (by simp)
    · rw [if_neg hp] at h
      intro hi
      rcases (List.infix_cons_iff).1 hi with hpp | hii
      · exact hp (List.isPrefixOf_iff_prefix.2 hpp)
      · have hnone : splitFirst pat rest = none := by
          cases hs2 : splitFirst pat rest with
          | none => rfl
          | some x =>
            rw [hs2] at h
            exact absurd h (by simp)
        exact ih hnone hii

theorem splitFirst_isSome_of_match {pat l : List Char}
    (h : pat <:+: l) : (splitFirst pat l).isSome = true := by
  cases hs : splitFirst pat l with
  | none => exact absurd h (splitFirst_not_infix_of_none hs)
  | some x => rfl

theorem getSubstitution_no_dollar {repl matched before after : List Char}
    (h : Char.ofNat 36 ∉ repl) : getSubstitution repl matched before after = repl := by
  induction repl with
  | nil => rfl
  | cons c rest ih =>
    rw [getSubstitution.eq_def]
    dsimp only
    rw [if_neg (fun hc => h (by rw [hc]; exact List.mem_cons_self _ _))]
    rw [ih (fun hm => h (List.mem_cons_of_mem c hm))]

-- ---------- injectComponentList lemmas ----------

theorem strIncludes_false_of_no_match {s sub : String} (h : ¬ strInfix sub s) :
    strIncludes s sub = false := by
  unfold strIncludes
  rw [splitFirst_none_of_no_match h]
  rfl

theorem strIncludes_true_of_match {s sub : String} (h : strInfix sub s) :
    strIncludes s sub = true := splitFirst_isSome_of_match h

theorem injectComponentList_append {fragment listHtml : String}
    (h : ¬ strInfix marker fragment) :
    injectComponentList fragment listHtml = fragment ++ "\n" ++ listHtml := by
  unfold injectComponentList
  rw [strIncludes_false_of_no_match h]
  rfl

theorem injectComponentList_replace {fragment listHtml : String}
    (hinc : strInfix marker fragment) (hnd : Char.ofNat 36 ∉ listHtml.data) :
    ∃ a b : String, fragment = a ++ marker ++ b ∧
      (∀ a2 b2 : String, fragment = a2 ++ marker ++ b2 →
        a.data.length ≤ a2.data.length) ∧
      injectComponentList fragment listHtml = a ++ listHtml ++ b := by
  have hs : (splitFirst marker.data fragment.data).isSome = true :=
    splitFirst_isSome_of_match hinc
  rcases Option.isSome_iff_exists.1 hs with ⟨⟨a0, b0⟩, hsf⟩
  refine ⟨⟨a0⟩, ⟨b0⟩, ?_, ?_, ?_⟩
  · apply strExt
    rw [strData_append, strData_append]
    exact splitFirst_eq hsf
  · intro a2 b2 he
    exact splitFirst_min hsf a2.data b2.data
      (by rw [← strData_append, ← strData_append, ← he])
  · unfold injectComponentList
    rw [show strIncludes fragment marker = true from hs]
    show jsReplace fragment marker listHtml = _
    unfold jsReplace
    rw [hsf]
    apply strExt
    rw [strData_append, strData_append]
    show a0 ++ getSubstitution listHtml.data marker.data a0 b0 ++ b0 = _
    rw [getSubstitution_no_dollar hnd]

-- ---------- route resolution lemmas ----------

theorem find?_toMeta {l : List ComponentMeta} {s : String}
    (hall : ∀ c ∈ l, ∃ x, c = toMeta x) (hmem : toMeta s ∈ l) :
    l.find? (fun c => c.slug == s) = some (toMeta s) := by
  induction l with
  | nil => exact absurd hmem (List.not_mem_nil _)
  | cons c t ih =>
    rw [List.find?_cons]
    cases hpc : (c.slug == s) with
    | true =>
      rcases hall c (List.mem_cons_self c t) with ⟨x, hx⟩
      have hslug : c.slug = x := by rw [hx]; rfl
      have hxs : x = s := by
        have := eq_of_beq hpc
        rw [hslug] at this
        exact this
      rw [hx, hxs]
    | false =>
      have hne : c ≠ toMeta s := by
        intro he
        rw [he] at hpc
        have : ((toMeta s).slug == s) = true := by
          have : (toMeta s).slug = s := rfl
          rw [this]
          exact beq_self_eq_true s
        rw [this] at hpc
        exact Bool.noConfusion hpc
      have hmem2 : toMeta s ∈ t := by
        rcases List.mem_cons.1 hmem with he | ht
        · exact absurd he.symm hne
        · exact ht
      exact ih (fun d hd => hall d (List.mem_cons_of_mem c hd)) hmem2

theorem mem_sortByTitle {c : ComponentMeta} {l : List ComponentMeta} :
    c ∈ sortByTitle l ↔ c ∈ l :=
  (List.perm_insertionSort (fun a b => a.title ≤ b.title) l).mem_iff

theorem routeFor_of_mem {slugs : List String} {s : String} (h : s ∈ slugs) :
    routeFor (sortByTitle (slugs.map toMeta)) s = toMeta s := by
  unfold routeFor
  rw [find?_toMeta]
  · rfl
  · intro c hc
    rcases List.mem_map.1 (mem_sortByTitle.1 hc) with ⟨x, _, hx⟩
    exact ⟨x, hx.symm⟩
  · exact mem_sortByTitle.2 (List.mem_map_of_mem toMeta h)

theorem routeFor_of_absent {comps : List ComponentMeta} {s : String}
    (h : ∀ c ∈ comps, c.slug ≠ s) : routeFor comps s = toMeta s := by
  unfold routeFor
  rw [List.find?_eq_none.2 (fun c hc => by simpa using h c hc)]
  rfl

-- ---------- serveComponent / fetchHandler structural lemmas ----------

theorem serveComponent_ne_ok_none (route : ComponentMeta) (env : Env)
    (comps : List ComponentMeta) : serveComponent route env comps ≠ .ok none := by
  unfold serveComponent
  cases env.assets route.file with
  | error e => simp
  | ok res =>
    by_cases hok : res.isOk = true
    · simp [hok]
    · simp [hok]

theorem serveComponent_404 {route : ComponentMeta} {env : Env}
    {comps : List ComponentMeta} {res : HttpResponse}
    (hfetch : env.assets route.file = .ok res) (hnok : res.isOk = false) :
    serveComponent route env comps = .ok (some
      { status := 404
        statusText := ""
        headers := [("content-type", "text/plain; charset=utf-8")]
        body := "Component not found. Unable to load " ++ route.file ++ ".\n" ++
          "Make sure it exists at public" ++ route.file ++ " and re-deploy." }) := by
  unfold serveComponent
  rw [hfetch]
  dsimp only
  rw [hnok]
  rfl

theorem serveComponent_200 {route : ComponentMeta} {env : Env}
    {comps : List ComponentMeta} {res : HttpResponse}
    (hfetch : env.assets route.file = .ok res) (hok : res.isOk = true) :
    serveComponent route env comps = .ok (some
      { status := 200
        statusText := ""
        headers := [("content-type", "text/html; charset=utf-8")]
        body := renderHtml route.title
          (if route.slug = "index" then
            injectComponentList res.body (renderComponentList comps)
          else res.body) }) := by
  unfold serveComponent
  rw [hfetch]
  dsimp only
  rw [hok]
  rfl

/-- The component branch of the handler as a function of the normalized
path (a proof device: `fetchHandler` equals this on every extensionless
path; the `Except.ok none` case cannot occur, see
`serveComponent_ne_ok_none`, and is mapped to an arbitrary response). -/
def componentResponse (env : Env) (path : String) : HttpResponse :=
  match serveComponent (routeFor (discoverComponents env) (slugOf path)) env
      (discoverComponents env) with
  | .ok (some r) => withSecurityHeaders r
  | .ok none => internalError ""
  | .error e => internalError e

theorem fetchHandler_component (env : Env) (pathname : String)
    (hext : hasFileExtension (normalizePath pathname) = false) :
    fetchHandler env pathname = componentResponse env (normalizePath pathname) := by
  unfold fetchHandler componentResponse
  dsimp only
  rw [if_pos hext]
  cases hsc : serveComponent (routeFor (discoverComponents env)
      (slugOf (normalizePath pathname))) env (discoverComponents env) with
  | error e => rfl
  | ok o =>
    cases o with
    | none => exact absurd hsc (serveComponent_ne_ok_none _ _ _)
    | some r => rfl

theorem fetchHandler_passthrough (env : Env) (pathname : String)
    (hext : hasFileExtension (normalizePath pathname) = true) :
    fetchHandler env pathname = assetPassthrough env pathname := by
  unfold fetchHandler
  dsimp only
  rw [if_neg (by rw [hext]; exact fun h => Bool.noConfusion h)]

theorem fetchHandler_finalized (env : Env) (pathname : String) :
    ∃ r, fetchHandler env pathname = withSecurityHeaders r := by
  cases hext : hasFileExtension (normalizePath pathname) with
  | true =>
    rw [fetchHandler_passthrough env pathname hext]
    unfold assetPassthrough
    cases env.assets pathname with
    | ok a => exact ⟨a, rfl⟩
    | error e => exact ⟨_, rfl⟩
  | false =>
    rw [fetchHandler_component env pathname hext]
    unfold componentResponse
    cases serveComponent (routeFor (discoverComponents env)
        (slugOf (normalizePath pathname))) env (discoverComponents env) with
    | error e => exact ⟨_, rfl⟩
    | ok o =>
      cases o with
      | none => exact ⟨_, rfl⟩
      | some r => exact ⟨r, rfl⟩

-- ---------- discovery, path and shell lemmas ----------

theorem discoverComponents_parsed {env : Env} {mres : HttpResponse} {slugs : List String}
    (hm : env.assets "/components/_index.json" = .ok mres) (hok : mres.isOk = true)
    (hp : env.jsonArray mres.body = some slugs) :
    discoverComponents env = sortByTitle (slugs.map toMeta) := by
  unfold discoverComponents
  rw [hm]
  dsimp only
  rw [hok]
  rw [if_pos rfl]
  rw [hp]

theorem normalizePath_of_no_trailing_slash {p : String}
    (h : p.data.getLast? ≠ some '/') : normalizePath p = p := by
  unfold normalizePath
  rw [if_neg]
  intro hc
  rw [Bool.and_eq_true] at hc
  exact h (eq_of_beq hc.1)

theorem strEmpty_of_data_nil {p : String} (h : p.data = []) : p = "" := strExt h

theorem normalizePath_append_slash {p : String} (hne : p ≠ "") :
    normalizePath (p ++ "/") = p := by
  unfold normalizePath
  rw [if_pos]
  · unfold strDropLast
    apply strExt
    show ((p ++ "/").data).dropLast = p.data
    rw [strData_append]
    exact List.dropLast_concat
  · rw [Bool.and_eq_true]
    constructor
    · apply beq_iff_eq.2
      rw [strData_append]
      exact List.getLast?_concat _
    · apply bne_iff_ne.2
      intro he
      apply hne
      apply strEmpty_of_data_nil
      have hd := congrArg String.data he
      rw [strData_append] at hd
      have : p.data.length + 1 = 1 := by
        have := congrArg List.length hd
        simpa using this
      have hlen : p.data.length = 0 := by omega
      exact List.eq_nil_of_length_eq_zero hlen

theorem strDrop1_slash_append (s : String) : strDrop1 ("/" ++ s) = s := by
  unfold strDrop1
  apply strExt
  show (("/" ++ s).data).drop 1 = s.data
  rw [strData_append]
  rfl

theorem slash_append_ne_root {s : String} (hne : s ≠ "") : "/" ++ s ≠ "/" := by
  intro he
  apply hne
  apply strEmpty_of_data_nil
  have hd := congrArg String.data he
  rw [strData_append] at hd
  simpa using hd

theorem slugOf_slash_append {s : String} (hne : s ≠ "") : slugOf ("/" ++ s) = s := by
  unfold slugOf
  rw [if_neg (slash_append_ne_root hne)]
  exact strDrop1_slash_append s

theorem toMeta_slug (s : String) : (toMeta s).slug = s := rfl

theorem toMeta_file (s : String) : (toMeta s).file = "/components/" ++ s ++ ".html" := rfl

theorem toMeta_path_of_ne {s : String} (h : s ≠ "index") : (toMeta s).path = "/" ++ s := by
  unfold toMeta
  dsimp only
  rw [if_neg h]

theorem renderHtml_pre_decomp (t b : String) :
    renderHtml t b =
      htmlShellPre ++ ("<title>" ++ t ++ "</title>" ++ htmlShellMid ++ b ++ htmlShellPost) := by
  apply strExt
  simp [renderHtml, strData_append, List.append_assoc]

theorem renderHtml_title_decomp (t b : String) :
    renderHtml t b =
      htmlShellPre ++ ("<title>" ++ t ++ "</title>") ++ (htmlShellMid ++ b ++ htmlShellPost) := by
  apply strExt
  simp [renderHtml, strData_append, List.append_assoc]

theorem renderHtml_body_decomp (t b : String) :
    renderHtml t b =
      (htmlShellPre ++ "<title>" ++ t ++ "</title>" ++ htmlShellMid) ++ b ++ htmlShellPost := by
  apply strExt
  simp [renderHtml, strData_append, List.append_assoc]

theorem renderHtml_mid_decomp (t b : String) :
    renderHtml t b =
      (htmlShellPre ++ "<title>" ++ t ++ "</title>") ++ htmlShellMid ++ (b ++ htmlShellPost) := by
  apply strExt
  simp [renderHtml, strData_append, List.append_assoc]

theorem strInfix_doctype (t b : String) : strInfix "<!doctype html>" (renderHtml t b) := by
  rw [renderHtml_pre_decomp]
  exact strInfix_append_right _ (by decide)

theorem strInfix_stylesheet (t b : String) :
    strInfix "<link rel=\"stylesheet\" href=\"/brand-tokens.css\" />" (renderHtml t b) := by
  rw [renderHtml_mid_decomp]
  exact strInfix_append_right _ (strInfix_append_left _ (by decide))

theorem strInfix_title_tag (t b : String) :
    strInfix ("<title>" ++ t ++ "</title>") (renderHtml t b) :=
  strInfix_of_decomp (renderHtml_title_decomp t b)

theorem strInfix_rendered_body (t b : String) : strInfix b (renderHtml t b) :=
  strInfix_of_decomp (renderHtml_body_decomp t b)

theorem strInfix_renderHtml_of_body {n t b : String} (h : strInfix n b) :
    strInfix n (renderHtml t b) := by
  rw [renderHtml_body_decomp]
  exact strInfix_append_right _ (strInfix_append_left _ h)

theorem strInfix_prefix_self (s t : String) : strInfix s (s ++ t) := by
  refine ⟨[], t.data, ?_⟩
  rw [strData_append]
  simp

-- ---------- concrete environments used by witnesses and counterexamples ----------

/-- A store with one component (`email-campaign`), a manifest listing it,
and an `index` fragment containing the marker. -/
def envA : Env :=
  { assets := fun q =>
      if q = "/components/_index.json" then .ok ⟨200, "", [], "[\"email-campaign\"]"⟩
      else if q = "/components/email-campaign.html" then .ok ⟨200, "", [], "<h1>Email</h1>"⟩
      else if q = "/components/index.html" then .ok ⟨200, "", [], "Home <!-- COMPONENT_LIST --> End"⟩
      else .ok ⟨404, "", [], "not found"⟩
    jsonArray := fun b => if b = "[\"email-campaign\"]" then some ["email-campaign"] else none }

/-- A store whose manifest is the empty JSON array. -/
def envEmptyManifest : Env :=
  { assets := fun q =>
      if q = "/components/_index.json" then .ok ⟨200, "", [], "[]"⟩
      else if q = "/components/index.html" then .ok ⟨200, "", [], "Welcome"⟩
      else .ok ⟨404, "", [], ""⟩
    jsonArray := fun b => if b = "[]" then some [] else none }

/-- A store whose manifest lists `alpha`. -/
def envAlpha : Env :=
  { assets := fun q =>
      if q = "/components/_index.json" then .ok ⟨200, "", [], "[\"alpha\"]"⟩
      else .ok ⟨404, "", [], ""⟩
    jsonArray := fun b =>
      if b = "[\"alpha\"]" then some ["alpha"]
      else if b = "[\"beta\"]" then some ["beta"] else none }

/-- The same store after its manifest resource changed to list `beta`. -/
def envBeta : Env :=
  { assets := fun q =>
      if q = "/components/_index.json" then .ok ⟨200, "", [], "[\"beta\"]"⟩
      else .ok ⟨404, "", [], ""⟩
    jsonArray := envAlpha.jsonArray }

/-- A store that answers every fetch with a plain 200 asset. -/
def envAsset : Env :=
  { assets := fun _ => .ok ⟨200, "", [("content-type", "text/css")], "body"⟩
    jsonArray := fun _ => none }

/-- `envAsset` with a different (never-consulted) manifest parser. -/
def envAsset2 : Env :=
  { assets := envAsset.assets
    jsonArray := fun _ => some ["ghost"] }

-- ---------- claims ----------

/-- Claim C2 counterexample: the `ComponentMeta` synthesized from the empty
slug has path "/" although the empty slug is not `index`, refuting the
claim's "path is `/` exactly when the slug is `index`" at slug `""`. -/
theorem C2_counterexample : (toMeta "").path = "/" ∧ "" ≠ "index" := by decide

/-- Claim C2 (amended: restricted to nonempty slugs, the only change the
counterexample `toMeta ""` forces): for every nonempty slug the derived
metadata is the deterministic image of the slug - path is "/" exactly when
the slug is `index` and `"/" ++ slug` otherwise, file is always
`/components/<slug>.html`, title is the capitalized hyphen-split of the slug
except the fixed literal for `index`; in particular `slide-typography` maps
to title "Slide Typography" and path "/slide-typography". -/
theorem C2_amended_toMeta_spec (s : String) (hne : s ≠ "") :
    ((toMeta s).path = "/" ↔ s = "index") ∧
    (s ≠ "index" → (toMeta s).path = "/" ++ s) ∧
    (toMeta s).file = "/components/" ++ s ++ ".html" ∧
    (toMeta s).title =
      (if s = "index" then "BDS Bootstrap Tokens – Overview" else slugToTitle s) ∧
    (toMeta "slide-typography").title = "Slide Typography" ∧
    (toMeta "slide-typography").path = "/slide-typography" := by
  refine ⟨?_, fun h => toMeta_path_of_ne h, rfl, rfl, by decide, by decide⟩
  constructor
  · intro hp
    by_contra hidx
    rw [toMeta_path_of_ne hidx] at hp
    exact slash_append_ne_root hne hp
  · intro hidx
    rw [hidx]
    rfl

/-- Claim C2 witness: the amended theorem evaluated at `slide-typography`. -/
theorem C2_witness :
    ("slide-typography" : String) ≠ "" ∧
    (((toMeta "slide-typography").path = "/" ↔ ("slide-typography" : String) = "index") ∧
    (("slide-typography" : String) ≠ "index" →
      (toMeta "slide-typography").path = "/" ++ "slide-typography") ∧
    (toMeta "slide-typography").file = "/components/" ++ "slide-typography" ++ ".html" ∧
    (toMeta "slide-typography").title =
      (if ("slide-typography" : String) = "index" then "BDS Bootstrap Tokens – Overview"
       else slugToTitle "slide-typography") ∧
    (toMeta "slide-typography").title = "Slide Typography" ∧
    (toMeta "slide-typography").path = "/slide-typography") :=
  ⟨by decide, C2_amended_toMeta_spec "slide-typography" (by decide)⟩

/-- Claim C3 counterexample: with a manifest fetch that succeeds and parses
as the empty array, `discoverComponents` returns the empty index, not the
single-element `index` fallback the claim asserts. -/
theorem C3_counterexample :
    discoverComponents envEmptyManifest = [] ∧
    discoverComponents envEmptyManifest ≠ [toMeta "index"] := by decide

/-- Claim C3 (amended: an empty parsed manifest yields the empty Component
Index - the single-entry fallback fires only when the fetch fails or parsing
throws - while the home route still returns 200 because routing synthesizes
the `index` route for slugs absent from the index). -/
theorem C3_amended_empty_manifest (env : Env) (mres fres : HttpResponse)
    (hm : env.assets "/components/_index.json" = .ok mres) (hok : mres.isOk = true)
    (hp : env.jsonArray mres.body = some [])
    (hf : env.assets "/components/index.html" = .ok fres) (hfok : fres.isOk = true) :
    discoverComponents env = [] ∧
    (fetchHandler env "/").status = 200 ∧
    hget (fetchHandler env "/").headers "Content-Type" = some "text/html; charset=utf-8" := by
  have hdisc : discoverComponents env = [] := by
    rw [discoverComponents_parsed hm hok hp]
    rfl
  have hext : hasFileExtension (normalizePath "/") = false := by decide
  have hroot : normalizePath "/" = "/" := by decide
  have hserve : serveComponent (toMeta "index") env (discoverComponents env) = .ok (some
      { status := 200
        statusText := ""
        headers := [("content-type", "text/html; charset=utf-8")]
        body := renderHtml (toMeta "index").title
          (if (toMeta "index").slug = "index" then
            injectComponentList fres.body (renderComponentList (discoverComponents env))
          else fres.body) }) :=
    serveComponent_200 (by rw [toMeta_file]; exact hf) hfok
  have hhandler : fetchHandler env "/" = componentResponse env "/" := by
    rw [fetchHandler_component env "/" hext, hroot]
  have hcomp : componentResponse env "/" = withSecurityHeaders
      { status := 200
        statusText := ""
        headers := [("content-type", "text/html; charset=utf-8")]
        body := renderHtml (toMeta "index").title
          (if (toMeta "index").slug = "index" then
            injectComponentList fres.body (renderComponentList (discoverComponents env))
          else fres.body) } := by
    unfold componentResponse
    rw [show slugOf "/" = "index" from rfl]
    rw [hdisc]
    rw [show routeFor [] "index" = toMeta "index" from rfl]
    rw [hdisc] at hserve
    rw [hserve]
  refine ⟨hdisc, ?_, ?_⟩
  · rw [hhandler, hcomp, withSecurityHeaders_status]
  · rw [hhandler, hcomp, hget_withSecurityHeaders_contentType]
    rfl

/-- Claim C3 witness: the amended theorem evaluated on the concrete store
with empty manifest. -/
theorem C3_witness :
    envEmptyManifest.assets "/components/_index.json" = .ok ⟨200, "", [], "[]"⟩ ∧
    (⟨200, "", [], "[]"⟩ : HttpResponse).isOk = true ∧
    envEmptyManifest.jsonArray "[]" = some [] ∧
    envEmptyManifest.assets "/components/index.html" = .ok ⟨200, "", [], "Welcome"⟩ ∧
    (⟨200, "", [], "Welcome"⟩ : HttpResponse).isOk = true ∧
    (discoverComponents envEmptyManifest = [] ∧
      (fetchHandler envEmptyManifest "/").status = 200 ∧
      hget (fetchHandler envEmptyManifest "/").headers "Content-Type" =
        some "text/html; charset=utf-8") :=
  ⟨rfl, by decide, rfl, rfl, by decide,
    C3_amended_empty_manifest envEmptyManifest ⟨200, "", [], "[]"⟩ ⟨200, "", [], "Welcome"⟩
      rfl (by decide) rfl rfl (by decide)⟩

/-- Claim C6 counterexample: `discoverComponents` of src/index.ts keeps no
process-wide cache - its result tracks the manifest resource at every call,
so two calls in the same process observe two fetches: with the manifest
changed between the calls (modelled by the two store states `envAlpha` and
`envBeta`, identical parsers), the second call does not return the first
call's value. -/
theorem C6_counterexample :
    discoverComponents envAlpha = [toMeta "alpha"] ∧
    discoverComponents envBeta = [toMeta "beta"] ∧
    discoverComponents envAlpha ≠ discoverComponents envBeta := by decide

/-- Claim C6 (amended: only the legacy src/worker.js discovery caches): the
worker.js `discoverComponents` with a populated `componentCache` returns the
cached index without reading the manifest, and after a first call populates
the cache every subsequent call returns the first call's result even if the
manifest has changed; the src/index.ts `discoverComponents` re-fetches the
manifest on every call (see the counterexample). -/
theorem C6_amended_worker_cache (cached : List ComponentMeta) (m m2 : List String) :
    discoverComponentsW (some cached) m = (cached, some cached) ∧
    discoverComponentsW ((discoverComponentsW none m).2) m2 =
      ((discoverComponentsW none m).1, (discoverComponentsW none m).2) := by
  exact ⟨rfl, rfl⟩

/-- Claim C7: `withSecurityHeaders` is a pure header overlay - it preserves
status, status text and body while setting the six fixed security headers -
and every response the handler returns carries that fixed header set. -/
theorem C7_security_headers :
    (∀ res : HttpResponse,
      (withSecurityHeaders res).status = res.status ∧
      (withSecurityHeaders res).statusText = res.statusText ∧
      (withSecurityHeaders res).body = res.body ∧
      securityHeaderSet (withSecurityHeaders res)) ∧
    (∀ (env : Env) (pathname : String), securityHeaderSet (fetchHandler env pathname)) := by
  constructor
  · intro res
    exact ⟨rfl, rfl, rfl, securityHeaderSet_withSecurityHeaders res⟩
  · intro env pathname
    rcases fetchHandler_finalized env pathname with ⟨r, hr⟩
    rw [hr]
    exact securityHeaderSet_withSecurityHeaders r

/-- Claim C8: a request whose normalized path has a file extension is never
routed as a component - the handler's answer is exactly the asset-store
passthrough of the original request, and it is unchanged under any
modification of the manifest data (same store, different parser). -/
theorem C8_extension_passthrough (env env2 : Env) (pathname : String)
    (hext : hasFileExtension (normalizePath pathname) = true)
    (hassets : env2.assets = env.assets) :
    fetchHandler env pathname = assetPassthrough env pathname ∧
    fetchHandler env2 pathname = fetchHandler env pathname := by
  constructor
  · exact fetchHandler_passthrough env pathname hext
  · rw [fetchHandler_passthrough env2 pathname hext, fetchHandler_passthrough env pathname hext]
    unfold assetPassthrough
    rw [hassets]

/-- Claim C8 witness: a CSS path on two stores sharing assets but with
different manifest parsers. -/
theorem C8_witness :
    hasFileExtension (normalizePath "/brand-tokens.css") = true ∧
    envAsset2.assets = envAsset.assets ∧
    (fetchHandler envAsset "/brand-tokens.css" = assetPassthrough envAsset "/brand-tokens.css" ∧
      fetchHandler envAsset2 "/brand-tokens.css" = fetchHandler envAsset "/brand-tokens.css") :=
  ⟨by decide, rfl,
    C8_extension_passthrough envAsset envAsset2 "/brand-tokens.css" (by decide) rfl⟩

/-- Claim C10: `serveComponent` never produces the `null` its return type
admits, so an extensionless request is answered by the component branch (its
response equals `componentResponse`, never the raw passthrough), and that
answer's status is 200 (wrapped page), 404 (typed component message) or 500
(thrown error). -/
theorem C10_serveComponent_total (route : ComponentMeta) (comps : List ComponentMeta)
    (env : Env) (pathname : String)
    (hext : hasFileExtension (normalizePath pathname) = false) :
    serveComponent route env comps ≠ .ok none ∧
    fetchHandler env pathname = componentResponse env (normalizePath pathname) ∧
    ((fetchHandler env pathname).status = 200 ∨ (fetchHandler env pathname).status = 404 ∨
      (fetchHandler env pathname).status = 500) := by
  refine ⟨serveComponent_ne_ok_none _ _ _, fetchHandler_component env pathname hext, ?_⟩
  rw [fetchHandler_component env pathname hext]
  unfold componentResponse
  cases hsc : serveComponent (routeFor (discoverComponents env)
      (slugOf (normalizePath pathname))) env (discoverComponents env) with
  | error e =>
    right; right
    rfl
  | ok o =>
    cases o with
    | none => exact absurd hsc (serveComponent_ne_ok_none _ _ _)
    | some r =>
      unfold serveComponent at hsc
      cases ha : env.assets (routeFor (discoverComponents env)
          (slugOf (normalizePath pathname))).file with
      | error e =>
        rw [ha] at hsc
        exact absurd hsc (by simp)
      | ok res =>
        rw [ha] at hsc
        dsimp only at hsc
        by_cases hok : res.isOk = true
        · rw [hok, if_pos rfl] at hsc
          simp only [Except.ok.injEq, Option.some.injEq] at hsc
          left
          rw [← hsc]
          rfl
        · rw [Bool.not_eq_true] at hok
          rw [hok] at hsc
          rw [if_neg (by intro h2; exact Bool.noConfusion h2)] at hsc
          simp only [Except.ok.injEq, Option.some.injEq] at hsc
          right; left
          rw [← hsc]
          rfl

/-- Claim C10 witness: the theorem evaluated on the concrete store with no
matching fragment. -/
theorem C10_witness :
    hasFileExtension (normalizePath "/does-not-exist") = false ∧
    (serveComponent (toMeta "ghost") envA [] ≠ .ok none ∧
      fetchHandler envA "/does-not-exist" =
        componentResponse envA (normalizePath "/does-not-exist") ∧
      ((fetchHandler envA "/does-not-exist").status = 200 ∨
        (fetchHandler envA "/does-not-exist").status = 404 ∨
        (fetchHandler envA "/does-not-exist").status = 500)) :=
  ⟨by decide, C10_serveComponent_total (toMeta "ghost") [] envA "/does-not-exist" (by decide)⟩

/-- A store with one asset at `/a.css` and nothing else; fetching
`/a.css/` (trailing slash) misses. -/
def envCss : Env :=
  { assets := fun q =>
      if q = "/a.css" then .ok ⟨200, "", [], "x"⟩ else .ok ⟨404, "", [], "nf"⟩
    jsonArray := fun _ => none }

/-- A store whose manifest lists only `index`, whose `index` fragment
contains the marker. -/
def envIdx : Env :=
  { assets := fun q =>
      if q = "/components/_index.json" then .ok ⟨200, "", [], "[\"index\"]"⟩
      else if q = "/components/index.html" then .ok ⟨200, "", [], "A<!-- COMPONENT_LIST -->B"⟩
      else .ok ⟨404, "", [], ""⟩
    jsonArray := fun b => if b = "[\"index\"]" then some ["index"] else none }

/-- Claim C4 counterexample: JS `replace` interprets replacement patterns,
so injecting the listing `"$$x"` into a fragment holding the marker yields
`"A$xB"`, not the marker replaced by the listing verbatim (`"A$$xB"`). -/
theorem C4_counterexample :
    injectComponentList "A<!-- COMPONENT_LIST -->B" "$$x" = "A$xB" ∧
    injectComponentList "A<!-- COMPONENT_LIST -->B" "$$x" ≠ "A" ++ "$$x" ++ "B" := by decide

/-- Claim C4 (amended: the replacement inserts the listing verbatim only
when the listing contains no dollar character, the only change the
counterexample forces; JS `replace` substitutes `$`-patterns in the
replacement string): for a dollar-free listing, a fragment containing the
marker has its first occurrence - and only that one - replaced by the
listing with all surrounding content preserved byte-for-byte, and a
fragment without the marker gets the listing appended after a newline,
its own content unchanged. -/
theorem C4_amended_inject_behavior (fragment listHtml : String)
    (hnd : Char.ofNat 36 ∉ listHtml.data) :
    (¬ strInfix marker fragment →
      injectComponentList fragment listHtml = fragment ++ "\n" ++ listHtml) ∧
    (strInfix marker fragment →
      ∃ a b : String, fragment = a ++ marker ++ b ∧
        (∀ a2 b2 : String, fragment = a2 ++ marker ++ b2 →
          a.data.length ≤ a2.data.length) ∧
        injectComponentList fragment listHtml = a ++ listHtml ++ b) :=
  ⟨fun h => injectComponentList_append h,
   fun h => injectComponentList_replace h hnd⟩

/-- Claim C4 witness: the amended theorem evaluated on a dollar-free
listing and a fragment containing the marker. -/
theorem C4_witness :
    Char.ofNat 36 ∉ ("<ul></ul>" : String).data ∧
    ((¬ strInfix marker "A<!-- COMPONENT_LIST -->B" →
      injectComponentList "A<!-- COMPONENT_LIST -->B" "<ul></ul>" =
        "A<!-- COMPONENT_LIST -->B" ++ "\n" ++ "<ul></ul>") ∧
    (strInfix marker "A<!-- COMPONENT_LIST -->B" →
      ∃ a b : String, "A<!-- COMPONENT_LIST -->B" = a ++ marker ++ b ∧
        (∀ a2 b2 : String, "A<!-- COMPONENT_LIST -->B" = a2 ++ marker ++ b2 →
          a.data.length ≤ a2.data.length) ∧
        injectComponentList "A<!-- COMPONENT_LIST -->B" "<ul></ul>" =
          a ++ "<ul></ul>" ++ b)) :=
  ⟨by decide, C4_amended_inject_behavior "A<!-- COMPONENT_LIST -->B" "<ul></ul>" (by decide)⟩

/-- Claim C5: on an extensionless path whose slug is absent from the
Component Index, the handler still attempts the fragment load at the
canonical `/components/<slug>.html`, and a missing or non-success store
response yields the typed plain-text 404 whose body names that file path. -/
theorem C5_unknown_slug_404 (env : Env) (p : String) (res : HttpResponse)
    (hext : hasFileExtension (normalizePath p) = false)
    (habsent : ∀ c ∈ discoverComponents env, c.slug ≠ slugOf (normalizePath p))
    (hfetch : env.assets ("/components/" ++ slugOf (normalizePath p) ++ ".html") = .ok res)
    (hnok : res.isOk = false) :
    (fetchHandler env p).status = 404 ∧
    hget (fetchHandler env p).headers "Content-Type" = some "text/plain; charset=utf-8" ∧
    strInfix ("/components/" ++ slugOf (normalizePath p) ++ ".html")
      (fetchHandler env p).body := by
  have hroute : routeFor (discoverComponents env) (slugOf (normalizePath p)) =
      toMeta (slugOf (normalizePath p)) := routeFor_of_absent habsent
  have hserve : serveComponent (toMeta (slugOf (normalizePath p))) env
      (discoverComponents env) = .ok (some
      { status := 404
        statusText := ""
        headers := [("content-type", "text/plain; charset=utf-8")]
        body := "Component not found. Unable to load " ++
          (toMeta (slugOf (normalizePath p))).file ++ ".\n" ++
          "Make sure it exists at public" ++ (toMeta (slugOf (normalizePath p))).file ++
          " and re-deploy." }) :=
    serveComponent_404 (by rw [toMeta_file]; exact hfetch) hnok
  have hh : fetchHandler env p = withSecurityHeaders
      { status := 404
        statusText := ""
        headers := [("content-type", "text/plain; charset=utf-8")]
        body := "Component not found. Unable to load " ++
          (toMeta (slugOf (normalizePath p))).file ++ ".\n" ++
          "Make sure it exists at public" ++ (toMeta (slugOf (normalizePath p))).file ++
          " and re-deploy." } := by
    rw [fetchHandler_component env p hext]
    unfold componentResponse
    rw [hroute, hserve]
  refine ⟨?_, ?_, ?_⟩
  · rw [hh, withSecurityHeaders_status]
  · rw [hh, hget_withSecurityHeaders_contentType]
    rfl
  · rw [hh, withSecurityHeaders_body]
    apply strInfix_of_decomp
      (a := "Component not found. Unable to load ")
      (b := ".\n" ++ "Make sure it exists at public" ++
        (toMeta (slugOf (normalizePath p))).file ++ " and re-deploy.")
    apply strExt
    rw [toMeta_file]
    simp [strData_append, List.append_assoc]

/-- Claim C5 witness: the theorem evaluated at `/does-not-exist` on the
concrete store, whose manifest lists only `email-campaign`. -/
theorem C5_witness :
    hasFileExtension (normalizePath "/does-not-exist") = false ∧
    envA.assets ("/components/" ++ slugOf (normalizePath "/does-not-exist") ++ ".html") =
      .ok ⟨404, "", [], "not found"⟩ ∧
    (⟨404, "", [], "not found"⟩ : HttpResponse).isOk = false ∧
    ((fetchHandler envA "/does-not-exist").status = 404 ∧
      hget (fetchHandler envA "/does-not-exist").headers "Content-Type" =
        some "text/plain; charset=utf-8" ∧
      strInfix ("/components/" ++ slugOf (normalizePath "/does-not-exist") ++ ".html")
        (fetchHandler envA "/does-not-exist").body) :=
  ⟨by decide, rfl, by decide,
    C5_unknown_slug_404 envA "/does-not-exist" ⟨404, "", [], "not found"⟩
      (by decide) (by decide) rfl (by decide)⟩

/-- Claim C9 counterexample: appending a trailing slash does not resolve
identically for every path - an extensioned path is passed through with its
original URL, so `/a.css` hits the stored asset (200) while `/a.css/`
misses (404). -/
theorem C9_counterexample :
    (fetchHandler envCss "/a.css").status = 200 ∧
    (fetchHandler envCss ("/a.css" ++ "/")).status = 404 := by decide

/-- Claim C9 (amended: restricted to extensionless paths that start with the
root slash and do not already end in one, the only restrictions the
counterexample and the single-slash normalization force): appending one
trailing slash yields the same slug and the identical response. -/
theorem C9_amended_trailing_slash (env : Env) (p : String)
    (hstart : p.data.head? = some '/')
    (hslash : p.data.getLast? ≠ some '/')
    (hext : hasFileExtension p = false) :
    slugOf (normalizePath (p ++ "/")) = slugOf (normalizePath p) ∧
    fetchHandler env (p ++ "/") = fetchHandler env p := by
  have hne : p ≠ "" := by
    intro he
    rw [he] at hstart
    exact absurd hstart (by decide)
  have hn1 : normalizePath (p ++ "/") = p := normalizePath_append_slash hne
  have hn2 : normalizePath p = p := normalizePath_of_no_trailing_slash hslash
  refine ⟨by rw [hn1, hn2], ?_⟩
  have hext1 : hasFileExtension (normalizePath (p ++ "/")) = false := by
    rw [hn1]; exact hext
  have hext2 : hasFileExtension (normalizePath p) = false := by
    rw [hn2]; exact hext
  rw [fetchHandler_component env _ hext1, fetchHandler_component env _ hext2, hn1, hn2]

/-- Claim C9 witness: the amended theorem evaluated at `/email-campaign`. -/
theorem C9_witness :
    ("/email-campaign" : String).data.head? = some '/' ∧
    ("/email-campaign" : String).data.getLast? ≠ some '/' ∧
    hasFileExtension "/email-campaign" = false ∧
    (slugOf (normalizePath ("/email-campaign" ++ "/")) =
        slugOf (normalizePath "/email-campaign") ∧
      fetchHandler envA ("/email-campaign" ++ "/") = fetchHandler envA "/email-campaign") :=
  ⟨by decide, by decide, by decide,
    C9_amended_trailing_slash envA "/email-campaign" (by decide) (by decide) (by decide)⟩

/-- Claim C1 counterexample: the slug `index` is present in the manifest,
the store serves its fragment (which contains the marker) and the manifest
fetch succeeds, the response is 200 - yet the response body does not
contain the fragment's stored content verbatim, because the marker was
replaced by the composed listing. -/
theorem C1_counterexample :
    (fetchHandler envIdx "/").status = 200 ∧
    ¬ strInfix "A<!-- COMPONENT_LIST -->B" (fetchHandler envIdx "/").body :=
  ⟨by decide, not_strInfix_of_includesB (by decide)⟩

/-- Claim C1 (amended: for the `index` slug the fragment must not contain
the marker - the counterexample's list injection rewrites it - with the
claim's own provisos made explicit: the slug is nonempty, as generated
manifests guarantee, and its public path is normalized and extensionless):
the wrapped page for a manifest slug is served with status 200, HTML
content type, and a body containing the fragment verbatim together with
the doctype, the `<title>` holding the component title, and the stylesheet
link. -/
theorem C1_amended_manifest_roundtrip (env : Env) (s : String) (slugs : List String)
    (mres fres : HttpResponse)
    (hm : env.assets "/components/_index.json" = .ok mres) (hmok : mres.isOk = true)
    (hparse : env.jsonArray mres.body = some slugs) (hmem : s ∈ slugs) (hne : s ≠ "")
    (hext : hasFileExtension ((toMeta s).path) = false)
    (hnorm : normalizePath ((toMeta s).path) = (toMeta s).path)
    (hfetch : env.assets ((toMeta s).file) = .ok fres) (hfok : fres.isOk = true)
    (hmark : s = "index" → ¬ strInfix marker fres.body) :
    (fetchHandler env ((toMeta s).path)).status = 200 ∧
    hget (fetchHandler env ((toMeta s).path)).headers "Content-Type" =
      some "text/html; charset=utf-8" ∧
    strInfix fres.body (fetchHandler env ((toMeta s).path)).body ∧
    strInfix "<!doctype html>" (fetchHandler env ((toMeta s).path)).body ∧
    strInfix ("<title>" ++ (toMeta s).title ++ "</title>")
      (fetchHandler env ((toMeta s).path)).body ∧
    strInfix "<link rel=\"stylesheet\" href=\"/brand-tokens.css\" />"
      (fetchHandler env ((toMeta s).path)).body := by
  have hdisc : discoverComponents env = sortByTitle (slugs.map toMeta) :=
    discoverComponents_parsed hm hmok hparse
  have hslug : slugOf ((toMeta s).path) = s := by
    by_cases hidx : s = "index"
    · rw [hidx]
      rfl
    · rw [toMeta_path_of_ne hidx]
      exact slugOf_slash_append hne
  have hroute : routeFor (discoverComponents env) s = toMeta s := by
    rw [hdisc]
    exact routeFor_of_mem hmem
  have hserve : serveComponent (toMeta s) env (discoverComponents env) = .ok (some
      { status := 200
        statusText := ""
        headers := [("content-type", "text/html; charset=utf-8")]
        body := renderHtml (toMeta s).title
          (if (toMeta s).slug = "index" then
            injectComponentList fres.body (renderComponentList (discoverComponents env))
          else fres.body) }) :=
    serveComponent_200 hfetch hfok
  have hh : fetchHandler env ((toMeta s).path) = withSecurityHeaders
      { status := 200
        statusText := ""
        headers := [("content-type", "text/html; charset=utf-8")]
        body := renderHtml (toMeta s).title
          (if (toMeta s).slug = "index" then
            injectComponentList fres.body (renderComponentList (discoverComponents env))
          else fres.body) } := by
    rw [fetchHandler_component env _ (by rw [hnorm]; exact hext)]
    unfold componentResponse
    rw [hnorm, hslug, hroute, hserve]
  have hfraginfix : strInfix fres.body
      (if (toMeta s).slug = "index" then
        injectComponentList fres.body (renderComponentList (discoverComponents env))
      else fres.body) := by
    rw [toMeta_slug]
    by_cases hidx : s = "index"
    · rw [if_pos hidx]
      rw [injectComponentList_append (hmark hidx)]
      rw [strAppend_assoc]
      exact strInfix_prefix_self _ _
    · rw [if_neg hidx]
      exact ⟨[], [], by simp⟩
  refine ⟨?_, ?_, ?_, ?_, ?_, ?_⟩
  · rw [hh, withSecurityHeaders_status]
  · rw [hh, hget_withSecurityHeaders_contentType]
    rfl
  · rw [hh, withSecurityHeaders_body]
    exact strInfix_renderHtml_of_body hfraginfix
  · rw [hh, withSecurityHeaders_body]
    exact strInfix_doctype _ _
  · rw [hh, withSecurityHeaders_body]
    exact strInfix_title_tag _ _
  · rw [hh, withSecurityHeaders_body]
    exact strInfix_stylesheet _ _

/-- Claim C1 witness: the amended theorem evaluated for the manifest slug
`email-campaign` on the concrete store. -/
theorem C1_witness :
    envA.assets "/components/_index.json" = .ok ⟨200, "", [], "[\"email-campaign\"]"⟩ ∧
    envA.jsonArray "[\"email-campaign\"]" = some ["email-campaign"] ∧
    ("email-campaign" : String) ∈ ["email-campaign"] ∧
    envA.assets ((toMeta "email-campaign").file) = .ok ⟨200, "", [], "<h1>Email</h1>"⟩ ∧
    ((fetchHandler envA ((toMeta "email-campaign").path)).status = 200 ∧
      hget (fetchHandler envA ((toMeta "email-campaign").path)).headers "Content-Type" =
        some "text/html; charset=utf-8" ∧
      strInfix (⟨200, "", [], "<h1>Email</h1>"⟩ : HttpResponse).body
        (fetchHandler envA ((toMeta "email-campaign").path)).body ∧
      strInfix "<!doctype html>" (fetchHandler envA ((toMeta "email-campaign").path)).body ∧
      strInfix ("<title>" ++ (toMeta "email-campaign").title ++ "</title>")
        (fetchHandler envA ((toMeta "email-campaign").path)).body ∧
      strInfix "<link rel=\"stylesheet\" href=\"/brand-tokens.css\" />"
        (fetchHandler envA ((toMeta "email-campaign").path)).body) :=
  ⟨rfl, rfl, by decide, rfl,
    C1_amended_manifest_roundtrip envA "email-campaign" ["email-campaign"]
      ⟨200, "", [], "[\"email-campaign\"]"⟩ ⟨200, "", [], "<h1>Email</h1>"⟩
      rfl (by decide) rfl (by decide) (by decide) (by decide) (by decide)
      rfl (by decide) (by decide)⟩

